import Mathlib

/-!
Verification of the empirical exceedance-probability estimator of the
precipitation notebooks.  The estimator filters a daily series to its wet
days, sorts them descending by amount, assigns ranks 1..N_wet, and computes
Weibull return periods, per-event probabilities, the wet-day probability and
annualized exceedance probabilities.  Amounts are modelled as exact
rationals.
-/

namespace EarthObs

/-- One row of the data frame `df`: a day index (1-based, as in
`range(1, size + 1)`) together with its precipitation amount. -/
structure Obs where
  day : ℕ
  precipitation : ℚ
deriving DecidableEq, Repr

/-- One row of `df_sorted` after the rank, return-period and probability
columns are inserted. -/
structure Ranked where
  day : ℕ
  precipitation : ℚ
  rank : ℕ
  return_period : ℚ
  probability : ℚ
deriving DecidableEq, Repr

/-- Helper for `mkSeries`: days are numbered consecutively from `d`. -/
def mkSeriesFrom (d : ℕ) : List ℚ → List Obs
  | [] => []
  | a :: rest => ⟨d, a⟩ :: mkSeriesFrom (d + 1) rest

/-- The observation series `df`, pairing each amount with its 1-based day
index as in `pd.DataFrame` built from `range(1, size + 1)` and the amounts. -/
def mkSeries (amounts : List ℚ) : List Obs :=
  mkSeriesFrom 1 amounts

/-- `dfwet = df[df.precipitation > 0]`. -/
def dfwet (df : List Obs) : List Obs :=
  df.filter (fun o => 0 < o.precipitation)

/-- `n_days = df.day.size`. -/
def n_days (df : List Obs) : ℕ := df.length

/-- `n_wet_days = dfwet.day.size`. -/
def n_wet_days (df : List Obs) : ℕ := (dfwet df).length

/-- `p_wetdays = n_wet_days / n_days`.  In Python this division raises
`ZeroDivisionError` when `n_days = 0`; that case is handled by `estimate`,
which returns `none` there, so this value is only meaningful for a
nonempty series. -/
def p_wetdays (df : List Obs) : ℚ :=
  (n_wet_days df : ℚ) / (n_days df : ℚ)

/-- The comparison key used by the sort: the precipitation amount. -/
def amtLE (a b : Obs) : Prop := a.precipitation ≤ b.precipitation

instance : DecidableRel amtLE :=
  fun a b => inferInstanceAs (Decidable (a.precipitation ≤ b.precipitation))

instance : IsTotal Obs amtLE :=
  ⟨fun a b => le_total a.precipitation b.precipitation⟩

instance : IsTrans Obs amtLE :=
  ⟨fun _ _ _ h1 h2 => le_trans h1 h2⟩

/-- `df_sorted = dfwet.sort_values(..., ascending=False)` sorting on the
precipitation column.  Pandas implements a descending sort by computing an
ascending argsort of the key column and then reversing the resulting index
order (function nargsort of pandas.core.sorting).  The default numpy
argsort kind is introsort, which insertion-sorts any partition of at most
16 elements — in particular whole arrays of at most 16 elements — and is
stable there, but is unstable on ties in larger arrays.  The embedding uses
a stable ascending insertion sort followed by reversal; it agrees with the
program exactly on tie-free inputs of any size and on wet subsets of at
most 16 records, while for larger tied inputs the tie order of the real
program is unspecified.  Accordingly, the only theorem below that depends
on tie order (`tie_break_reversed`) is restricted to wet subsets of at
most 16 records; every other theorem is invariant under the order of tied
records. -/
def df_sorted (df : List Obs) : List Obs :=
  ((dfwet df).insertionSort amtLE).reverse

/-- `rank = np.arange(1, n_wet_days + 1)` inserted positionally into the
sorted frame, together with the derived columns
`return_period = (n_wet_days + 1) / rank` and
`probability = 1 / return_period`.  Here `n` is `n_wet_days` and `m` the
rank given to the head record. -/
def rankFrom (n : ℕ) : ℕ → List Obs → List Ranked
  | _, [] => []
  | m, o :: rest =>
    ⟨o.day, o.precipitation, m, ((n : ℚ) + 1) / (m : ℚ),
      1 / (((n : ℚ) + 1) / (m : ℚ))⟩ :: rankFrom n (m + 1) rest

/-- The fully ranked frame: `df_sorted` with the rank, return-period and
probability columns. -/
def ranked (df : List Obs) : List Ranked :=
  rankFrom (n_wet_days df) 1 (df_sorted df)

/-- `probability_annual_exceedance
      = 1 - (1 - (df_sorted.probability * p_wetdays)) ** 365`. -/
def probability_annual_exceedance (df : List Obs) : List ℚ :=
  (ranked df).map (fun r => 1 - (1 - r.probability * p_wetdays df) ^ 365)

/-- Everything the notebook derives from one input series. -/
structure Output where
  n_days : ℕ
  n_wet_days : ℕ
  p_wetdays : ℚ
  records : List Ranked
  annual : List ℚ
deriving DecidableEq, Repr

/-- The whole pipeline, all-or-nothing.  The only failing operation in the
source is the division `n_wet_days / n_days`, which raises
`ZeroDivisionError` exactly when the series is empty; every later step is
total (an empty wet subset yields empty columns, not an error). -/
def estimate (amounts : List ℚ) : Option Output :=
  let df := mkSeries amounts
  if n_days df = 0 then none
  else
    some ⟨n_days df, n_wet_days df, p_wetdays df, ranked df,
      probability_annual_exceedance df⟩

/-- From the Tenerife notebook: `p_annual = 1 - (1 - p_daily*p_wet)**365`. -/
def p_annual_model (p_daily p_wet : ℚ) : ℚ :=
  1 - (1 - p_daily * p_wet) ^ 365

/-- From the Tenerife notebook: `return_period_model = 1/p_annual`. -/
def return_period_model (p_daily p_wet : ℚ) : ℚ :=
  1 / p_annual_model p_daily p_wet

/-! ### Helper lemmas -/

theorem length_mkSeriesFrom (d : ℕ) (amounts : List ℚ) :
    (mkSeriesFrom d amounts).length = amounts.length := by
  induction amounts generalizing d with
  | nil => rfl
  | cons a rest ih => simp [mkSeriesFrom, ih]

theorem length_df_sorted (df : List Obs) :
    (df_sorted df).length = n_wet_days df := by
  simp [df_sorted, n_wet_days, List.length_reverse, List.length_insertionSort]

theorem mem_rankFrom {n : ℕ} {r : Ranked} :
    ∀ {m : ℕ} {l : List Obs}, r ∈ rankFrom n m l →
      m ≤ r.rank ∧ r.rank < m + l.length ∧
      r.return_period = ((n : ℚ) + 1) / (r.rank : ℚ) ∧
      r.probability = 1 / (((n : ℚ) + 1) / (r.rank : ℚ)) := by
  intro m l
  induction l generalizing m with
  | nil => intro h; simp [rankFrom] at h
  | cons o rest ih =>
    intro h
    rcases List.mem_cons.mp h with h | h
    · subst h
      exact ⟨le_refl _, by simp, rfl, rfl⟩
    · obtain ⟨h1, h2, h3, h4⟩ := ih h
      exact ⟨by omega, by simp only [List.length_cons]; omega, h3, h4⟩

theorem mem_ranked {df : List Obs} {r : Ranked} (h : r ∈ ranked df) :
    1 ≤ r.rank ∧ r.rank ≤ n_wet_days df ∧
    r.return_period = ((n_wet_days df : ℚ) + 1) / (r.rank : ℚ) ∧
    r.probability = 1 / (((n_wet_days df : ℚ) + 1) / (r.rank : ℚ)) := by
  obtain ⟨h1, h2, h3, h4⟩ := mem_rankFrom h
  rw [length_df_sorted] at h2
  exact ⟨h1, by omega, h3, h4⟩

theorem map_rank_rankFrom (n : ℕ) :
    ∀ (m : ℕ) (l : List Obs),
      (rankFrom n m l).map (fun r => r.rank) = List.range' m l.length := by
  intro m l
  induction l generalizing m with
  | nil => rfl
  | cons o rest ih =>
    simp [rankFrom, List.length_cons, List.range'_succ, ih]

theorem map_day_rankFrom (n : ℕ) :
    ∀ (m : ℕ) (l : List Obs),
      (rankFrom n m l).map (fun r => r.day) = l.map (fun o => o.day) := by
  intro m l
  induction l generalizing m with
  | nil => rfl
  | cons o rest ih => simp [rankFrom, ih]

theorem exists_obs_of_mem_rankFrom {n : ℕ} {r : Ranked} :
    ∀ {m : ℕ} {l : List Obs}, r ∈ rankFrom n m l →
      ∃ o ∈ l, o.day = r.day ∧ o.precipitation = r.precipitation := by
  intro m l
  induction l generalizing m with
  | nil => intro h; simp [rankFrom] at h
  | cons o rest ih =>
    intro h
    rcases List.mem_cons.mp h with h | h
    · subst h; exact ⟨o, List.mem_cons_self .., rfl, rfl⟩
    · obtain ⟨o', ho', h1, h2⟩ := ih h
      exact ⟨o', List.mem_cons_of_mem _ ho', h1, h2⟩

theorem day_ge_of_mem_mkSeriesFrom {o : Obs} :
    ∀ {d : ℕ} {amounts : List ℚ}, o ∈ mkSeriesFrom d amounts → d ≤ o.day := by
  intro d amounts
  induction amounts generalizing d with
  | nil => intro h; simp [mkSeriesFrom] at h
  | cons a rest ih =>
    intro h
    rcases List.mem_cons.mp h with h | h
    · subst h; exact le_refl _
    · exact le_trans (by omega) (ih h)

theorem pairwise_day_mkSeriesFrom (d : ℕ) (amounts : List ℚ) :
    (mkSeriesFrom d amounts).Pairwise (fun a b => a.day < b.day) := by
  induction amounts generalizing d with
  | nil => exact List.Pairwise.nil
  | cons a rest ih =>
    refine List.Pairwise.cons ?_ (ih (d + 1))
    intro b hb
    have := day_ge_of_mem_mkSeriesFrom hb
    simp only
    omega

theorem pairwise_day_dfwet (amounts : List ℚ) :
    (dfwet (mkSeries amounts)).Pairwise (fun a b => a.day < b.day) :=
  (pairwise_day_mkSeriesFrom 1 amounts).filter _

theorem pair_sublist_of_pairwise_day {l : List Obs}
    (hp : l.Pairwise (fun a b => a.day < b.day)) {a b : Obs}
    (ha : a ∈ l) (hb : b ∈ l) (hab : a.day < b.day) :
    List.Sublist [a, b] l := by
  induction l with
  | nil => simp at ha
  | cons x t ih =>
    obtain ⟨hx, hp'⟩ := List.pairwise_cons.mp hp
    rcases List.mem_cons.mp ha with rfl | ha'
    · rcases List.mem_cons.mp hb with rfl | hb'
      · exact absurd hab (lt_irrefl _)
      · exact List.Sublist.cons₂ _ (List.singleton_sublist.mpr hb')
    · rcases List.mem_cons.mp hb with rfl | hb'
      · exact absurd (lt_trans (hx a ha') hab) (lt_irrefl _)
      · exact List.Sublist.cons _ (ih hp' ha' hb')

theorem rank_lt_of_pair_sublist (n : ℕ) :
    ∀ (m : ℕ) (l : List Obs),
      (l.map (fun o => o.day)).Nodup →
      ∀ {a b : Obs}, List.Sublist [b, a] l →
      ∀ r1 ∈ rankFrom n m l, ∀ r2 ∈ rankFrom n m l,
        r1.day = a.day → r2.day = b.day → r2.rank < r1.rank := by
  intro m l
  induction l generalizing m with
  | nil => intro _ a b hsub; simp at hsub
  | cons x t ih =>
    intro hnd a b hsub r1 hr1 r2 hr2 hda hdb
    simp only [List.map_cons, List.nodup_cons] at hnd
    obtain ⟨hx, hnd'⟩ := hnd
    have day_tail : ∀ {r : Ranked}, r ∈ rankFrom n (m + 1) t →
        r.day ∈ t.map (fun o => o.day) := by
      intro r hr
      rw [← map_day_rankFrom n (m + 1) t]
      exact List.mem_map_of_mem _ hr
    cases hsub with
    | cons₂ _ h =>
      -- here b = x and a occurs in t
      have hat : a ∈ t := List.singleton_sublist.mp h
      have hadayt : a.day ∈ t.map (fun o => o.day) :=
        List.mem_map_of_mem _ hat
      -- r2 must be the head record, of rank m
      rcases List.mem_cons.mp hr2 with rfl | hr2'
      · -- r1 cannot be the head record since its day occurs in t
        rcases List.mem_cons.mp hr1 with rfl | hr1'
        · have hxa : x.day = a.day := hda
          exact absurd (hxa.symm ▸ hadayt) hx
        · have := (mem_rankFrom hr1').1
          simpa using this
      · exact absurd (hdb ▸ day_tail hr2') hx
    | cons _ h =>
      -- here both a and b occur in t
      have hat : a ∈ t := h.subset (List.mem_cons_of_mem _ (List.mem_cons_self ..))
      have hbt : b ∈ t := h.subset (List.mem_cons_self ..)
      rcases List.mem_cons.mp hr1 with rfl | hr1'
      · have hxa : x.day = a.day := hda
        exact absurd (hxa.symm ▸ List.mem_map_of_mem _ hat) hx
      rcases List.mem_cons.mp hr2 with rfl | hr2'
      · have hxb : x.day = b.day := hdb
        exact absurd (hxb.symm ▸ List.mem_map_of_mem _ hbt) hx
      exact ih (m + 1) hnd' h r1 hr1' r2 hr2' hda hdb

theorem nodup_day_df_sorted (amounts : List ℚ) :
    ((df_sorted (mkSeries amounts)).map (fun o => o.day)).Nodup := by
  have hperm :
      List.Perm (df_sorted (mkSeries amounts)) (dfwet (mkSeries amounts)) :=
    (List.reverse_perm _).trans (List.perm_insertionSort _ _)
  have hnd : ((dfwet (mkSeries amounts)).map (fun o => o.day)).Nodup := by
    have := (pairwise_day_dfwet amounts)
    have : ((dfwet (mkSeries amounts)).map (fun o => o.day)).Pairwise (· < ·) :=
      List.pairwise_map.mpr this
    exact this.imp ne_of_lt
  exact ((hperm.map _).nodup_iff).mpr hnd

theorem prob_eq_rank_div {df : List Obs} {r : Ranked} (h : r ∈ ranked df) :
    r.probability = (r.rank : ℚ) / ((n_wet_days df : ℚ) + 1) := by
  rw [(mem_ranked h).2.2.2, one_div_div]

/-! ### Claims -/

/-- Claim C1: for every wet subset of size `N_wet ≥ 1`, the record of rank
`m` (with `1 ≤ m ≤ N_wet`) receives return period
`τ(m) = (N_wet + 1) / m`; in particular `τ(1) = N_wet + 1` and
`τ(N_wet) = (N_wet + 1) / N_wet`. -/
theorem weibull_return_period (amounts : List ℚ)
    (h : 1 ≤ n_wet_days (mkSeries amounts)) :
    (∀ r ∈ ranked (mkSeries amounts),
      1 ≤ r.rank ∧ r.rank ≤ n_wet_days (mkSeries amounts) ∧
      r.return_period
        = ((n_wet_days (mkSeries amounts) : ℚ) + 1) / (r.rank : ℚ)) ∧
    (∀ r ∈ ranked (mkSeries amounts), r.rank = 1 →
      r.return_period = (n_wet_days (mkSeries amounts) : ℚ) + 1) ∧
    (∀ r ∈ ranked (mkSeries amounts), r.rank = n_wet_days (mkSeries amounts) →
      r.return_period
        = ((n_wet_days (mkSeries amounts) : ℚ) + 1)
          / (n_wet_days (mkSeries amounts) : ℚ)) := by
  refine ⟨?_, ?_, ?_⟩
  · intro r hr
    obtain ⟨h1, h2, h3, _⟩ := mem_ranked hr
    exact ⟨h1, h2, h3⟩
  · intro r hr hrank
    rw [(mem_ranked hr).2.2.1, hrank]
    norm_num
  · intro r hr hrank
    rw [(mem_ranked hr).2.2.1, hrank]

/-- Witness for `weibull_return_period` at the concrete series
`[0, 5, 0, 20, 10]`. -/
theorem weibull_return_period_witness :
    1 ≤ n_wet_days (mkSeries [0, 5, 0, 20, 10]) ∧
    (∀ r ∈ ranked (mkSeries [0, 5, 0, 20, 10]), r.rank = 1 →
      r.return_period = (n_wet_days (mkSeries [0, 5, 0, 20, 10]) : ℚ) + 1) :=
  ⟨by decide, (weibull_return_period [0, 5, 0, 20, 10] (by decide)).2.1⟩

/-- Claim C5: the per-event probability is the reciprocal of the return
period and equals `m / (N_wet + 1)` exactly. -/
theorem probability_reciprocal (amounts : List ℚ)
    (h : 1 ≤ n_wet_days (mkSeries amounts)) :
    ∀ r ∈ ranked (mkSeries amounts),
      r.probability = 1 / r.return_period ∧
      r.probability
        = (r.rank : ℚ) / ((n_wet_days (mkSeries amounts) : ℚ) + 1) := by
  intro r hr
  obtain ⟨_, _, h3, h4⟩ := mem_ranked hr
  constructor
  · rw [h4, h3]
  · exact prob_eq_rank_div hr

/-- Witness for `probability_reciprocal` at the concrete series
`[0, 5, 0, 20, 10]`. -/
theorem probability_reciprocal_witness :
    1 ≤ n_wet_days (mkSeries [0, 5, 0, 20, 10]) ∧
    ∀ r ∈ ranked (mkSeries [0, 5, 0, 20, 10]),
      r.probability = 1 / r.return_period ∧
      r.probability
        = (r.rank : ℚ) / ((n_wet_days (mkSeries [0, 5, 0, 20, 10]) : ℚ) + 1) :=
  ⟨by decide, probability_reciprocal [0, 5, 0, 20, 10] (by decide)⟩

/-- Claim C7: the assigned ranks are exactly the list `1, …, N_wet`; every
integer in that range occurs exactly once and nothing else occurs. -/
theorem ranks_permutation (amounts : List ℚ)
    (h : 1 ≤ n_wet_days (mkSeries amounts)) :
    (ranked (mkSeries amounts)).map (fun r => r.rank)
      = List.range' 1 (n_wet_days (mkSeries amounts)) ∧
    ∀ m : ℕ,
      ((ranked (mkSeries amounts)).map (fun r => r.rank)).count m
        = if 1 ≤ m ∧ m ≤ n_wet_days (mkSeries amounts) then 1 else 0 := by
  have he : (ranked (mkSeries amounts)).map (fun r => r.rank)
      = List.range' 1 (n_wet_days (mkSeries amounts)) := by
    rw [ranked, map_rank_rankFrom, length_df_sorted]
  refine ⟨he, ?_⟩
  intro m
  rw [he]
  by_cases hm : 1 ≤ m ∧ m ≤ n_wet_days (mkSeries amounts)
  · rw [if_pos hm]
    refine List.count_eq_one_of_mem (List.nodup_range' 1 _) ?_
    rw [List.mem_range'_1]
    omega
  · rw [if_neg hm]
    refine List.count_eq_zero_of_not_mem ?_
    rw [List.mem_range'_1]
    omega

/-- Witness for `ranks_permutation` at the concrete series
`[0, 5, 0, 20, 10]`. -/
theorem ranks_permutation_witness :
    1 ≤ n_wet_days (mkSeries [0, 5, 0, 20, 10]) ∧
    (ranked (mkSeries [0, 5, 0, 20, 10])).map (fun r => r.rank)
      = List.range' 1 (n_wet_days (mkSeries [0, 5, 0, 20, 10])) :=
  ⟨by decide, (ranks_permutation [0, 5, 0, 20, 10] (by decide)).1⟩

/-- Claim C8 counterexample: on the series `[20, 10]` the return period is
not non-decreasing in the rank: the rank-1 record has return period 3 while
the rank-2 record has return period 3/2. -/
theorem return_period_not_nondecreasing :
    ¬ (∀ r1 ∈ ranked (mkSeries [20, 10]), ∀ r2 ∈ ranked (mkSeries [20, 10]),
        r1.rank < r2.rank → r1.return_period ≤ r2.return_period) := by
  intro h
  have e : ranked (mkSeries [20, 10])
      = [⟨1, 20, 1, (((2 : ℕ) : ℚ) + 1) / ((1 : ℕ) : ℚ),
           1 / ((((2 : ℕ) : ℚ) + 1) / ((1 : ℕ) : ℚ))⟩,
         ⟨2, 10, 2, (((2 : ℕ) : ℚ) + 1) / ((2 : ℕ) : ℚ),
           1 / ((((2 : ℕ) : ℚ) + 1) / ((2 : ℕ) : ℚ))⟩] := rfl
  rw [e] at h
  have h2 := h _ (List.mem_cons_self _ _) _
    (List.mem_cons_of_mem _ (List.mem_cons_self _ _)) (by norm_num)
  norm_num at h2

/-- Claim C8 amended: the return period is monotonically non-increasing as
the rank increases: `rank m1 < rank m2` implies `τ(m1) ≥ τ(m2)`. -/
theorem return_period_antitone (amounts : List ℚ)
    (h : 2 ≤ n_wet_days (mkSeries amounts)) :
    ∀ r1 ∈ ranked (mkSeries amounts), ∀ r2 ∈ ranked (mkSeries amounts),
      r1.rank < r2.rank → r2.return_period ≤ r1.return_period := by
  intro r1 hr1 r2 hr2 hlt
  obtain ⟨h11, _, h13, _⟩ := mem_ranked hr1
  obtain ⟨h21, _, h23, _⟩ := mem_ranked hr2
  rw [h13, h23]
  have c1 : (0 : ℚ) < (r1.rank : ℚ) := by exact_mod_cast h11
  have c2 : (r1.rank : ℚ) ≤ (r2.rank : ℚ) := by exact_mod_cast le_of_lt hlt
  have c0 : (0 : ℚ) ≤ (n_wet_days (mkSeries amounts) : ℚ) + 1 := by positivity
  exact div_le_div_of_nonneg_left c0 c1 c2

/-- Witness for `return_period_antitone` at the concrete series
`[0, 5, 0, 20, 10]`. -/
theorem return_period_antitone_witness :
    2 ≤ n_wet_days (mkSeries [0, 5, 0, 20, 10]) ∧
    ∀ r1 ∈ ranked (mkSeries [0, 5, 0, 20, 10]),
      ∀ r2 ∈ ranked (mkSeries [0, 5, 0, 20, 10]),
        r1.rank < r2.rank → r2.return_period ≤ r1.return_period :=
  ⟨by decide, return_period_antitone [0, 5, 0, 20, 10] (by decide)⟩

/-- Claim C3 counterexample: on the all-equal input `[5, 5, 5]` the ranks do
not follow input order.  The pandas descending sort reverses a stably
ascending-sorted order, so day 3 gets rank 1 and day 1 gets rank 3; the
claimed tie-break (earlier input receives the smaller rank) fails. -/
theorem tie_break_not_input_order :
    ((ranked (mkSeries [5, 5, 5])).map (fun r => (r.day, r.rank))
      = [(3, 1), (2, 2), (1, 3)]) ∧
    ¬ (∀ r1 ∈ ranked (mkSeries [5, 5, 5]), ∀ r2 ∈ ranked (mkSeries [5, 5, 5]),
        r1.precipitation = r2.precipitation → r1.day < r2.day →
          r1.rank < r2.rank) := by
  refine ⟨by decide, ?_⟩
  intro h
  have e : ranked (mkSeries [5, 5, 5])
      = [⟨3, 5, 1, (((3 : ℕ) : ℚ) + 1) / ((1 : ℕ) : ℚ),
           1 / ((((3 : ℕ) : ℚ) + 1) / ((1 : ℕ) : ℚ))⟩,
         ⟨2, 5, 2, (((3 : ℕ) : ℚ) + 1) / ((2 : ℕ) : ℚ),
           1 / ((((3 : ℕ) : ℚ) + 1) / ((2 : ℕ) : ℚ))⟩,
         ⟨1, 5, 3, (((3 : ℕ) : ℚ) + 1) / ((3 : ℕ) : ℚ),
           1 / ((((3 : ℕ) : ℚ) + 1) / ((3 : ℕ) : ℚ))⟩] := rfl
  rw [e] at h
  have h2 := h _
    (List.mem_cons_of_mem _ (List.mem_cons_of_mem _ (List.mem_cons_self _ _)))
    _ (List.mem_cons_self _ _) rfl (by norm_num)
  norm_num at h2

/-- Claim C3 amended: ranks are assigned after a descending sort realized as
an ascending argsort followed by reversal, so ranks do not follow input
order on ties; for wet subsets of at most 16 records — the regime in which
the default numpy argsort insertion-sorts the whole array and is therefore
stable — whenever two wet observations have equal amounts, the one
occurring later in the original input receives the smaller rank; in
particular for an all-equal input such as `[5, 5, 5]` the ranks follow
reversed input order.  (For larger tied wet subsets the tie order of the
default quicksort is unspecified.) -/
theorem tie_break_reversed (amounts : List ℚ)
    (h : 1 ≤ n_wet_days (mkSeries amounts))
    (hsmall : n_wet_days (mkSeries amounts) ≤ 16) :
    ∀ r1 ∈ ranked (mkSeries amounts), ∀ r2 ∈ ranked (mkSeries amounts),
      r1.precipitation = r2.precipitation → r1.day < r2.day →
        r2.rank < r1.rank := by
  intro r1 hr1 r2 hr2 hprec hday
  obtain ⟨o1, ho1, hd1, hp1⟩ := exists_obs_of_mem_rankFrom hr1
  obtain ⟨o2, ho2, hd2, hp2⟩ := exists_obs_of_mem_rankFrom hr2
  have hw1 : o1 ∈ dfwet (mkSeries amounts) := by
    have h' := ho1
    simp only [df_sorted, List.mem_reverse, List.mem_insertionSort] at h'
    exact h'
  have hw2 : o2 ∈ dfwet (mkSeries amounts) := by
    have h' := ho2
    simp only [df_sorted, List.mem_reverse, List.mem_insertionSort] at h'
    exact h'
  have hsub : List.Sublist [o1, o2] (dfwet (mkSeries amounts)) :=
    pair_sublist_of_pairwise_day (pairwise_day_dfwet amounts) hw1 hw2
      (by rw [hd1, hd2]; exact hday)
  have hle : amtLE o1 o2 := by
    show o1.precipitation ≤ o2.precipitation
    rw [hp1, hp2]
    exact le_of_eq hprec
  have hsub2 :
      List.Sublist [o1, o2] ((dfwet (mkSeries amounts)).insertionSort amtLE) :=
    List.pair_sublist_insertionSort hle hsub
  have hsub3 : List.Sublist [o2, o1] (df_sorted (mkSeries amounts)) := by
    rw [df_sorted]
    simpa using hsub2.reverse
  exact rank_lt_of_pair_sublist (n_wet_days (mkSeries amounts)) 1
    (df_sorted (mkSeries amounts)) (nodup_day_df_sorted amounts) hsub3
    r1 hr1 r2 hr2 hd1.symm hd2.symm

/-- Witness for `tie_break_reversed` at the concrete tied series `[7, 7]`. -/
theorem tie_break_reversed_witness :
    1 ≤ n_wet_days (mkSeries [7, 7]) ∧
    n_wet_days (mkSeries [7, 7]) ≤ 16 ∧
    (∀ r1 ∈ ranked (mkSeries [7, 7]), ∀ r2 ∈ ranked (mkSeries [7, 7]),
      r1.precipitation = r2.precipitation → r1.day < r2.day →
        r2.rank < r1.rank) :=
  ⟨by decide, by decide, tie_break_reversed [7, 7] (by decide) (by decide)⟩

/-- Claim C2: the estimator computes `p_wet = N_wet / N`, and the annualized
exceedance probability of the rank-`m` record is
`1 - (1 - (m / (N_wet + 1)) * p_wet) ^ 365`. -/
theorem p_wet_and_annualization (amounts : List ℚ)
    (hN : 1 ≤ n_days (mkSeries amounts))
    (hw : 1 ≤ n_wet_days (mkSeries amounts)) :
    p_wetdays (mkSeries amounts)
      = (n_wet_days (mkSeries amounts) : ℚ) / (n_days (mkSeries amounts) : ℚ) ∧
    probability_annual_exceedance (mkSeries amounts)
      = (ranked (mkSeries amounts)).map
          (fun r => 1 -
            (1 - ((r.rank : ℚ) / ((n_wet_days (mkSeries amounts) : ℚ) + 1))
              * p_wetdays (mkSeries amounts)) ^ 365) := by
  refine ⟨rfl, ?_⟩
  rw [probability_annual_exceedance]
  refine List.map_congr_left ?_
  intro r hr
  rw [prob_eq_rank_div hr]

/-- Witness for `p_wet_and_annualization` at the concrete series
`[0, 5, 0, 20, 10]`. -/
theorem p_wet_and_annualization_witness :
    1 ≤ n_days (mkSeries [0, 5, 0, 20, 10]) ∧
    p_wetdays (mkSeries [0, 5, 0, 20, 10])
      = (n_wet_days (mkSeries [0, 5, 0, 20, 10]) : ℚ)
        / (n_days (mkSeries [0, 5, 0, 20, 10]) : ℚ) :=
  ⟨by decide, (p_wet_and_annualization [0, 5, 0, 20, 10]
    (by decide) (by decide)).1⟩

/-- Claim C4 counterexample: the code has no input guards.  On `[0]` the wet
subset is empty, which the claim says must produce an explicit error, yet
the pipeline succeeds (with empty ranked columns); likewise a negative
amount such as `[-1]` is silently treated as a dry day instead of being
rejected. -/
theorem estimate_no_guards :
    n_wet_days (mkSeries [0]) = 0 ∧ estimate [0] ≠ none ∧
    n_wet_days (mkSeries [-1]) = 0 ∧ estimate [-1] ≠ none :=
  ⟨by decide, by decide, by decide, by decide⟩

/-- Claim C4 amended: the pipeline fails exactly when the series is empty
(`N = 0`, where the Python division `n_wet_days / n_days` raises); an empty
wet subset with `N ≥ 1` silently yields a result with empty ranked columns,
and negative amounts are silently filtered to the dry side rather than
rejected.  The computation is still all-or-nothing: it either fails or
returns the complete output. -/
theorem estimate_none_iff (amounts : List ℚ) :
    estimate amounts = none ↔ amounts = [] := by
  simp only [estimate]
  split_ifs with h
  · constructor
    · intro _
      have hlen : amounts.length = 0 := by
        rw [n_days, mkSeries, length_mkSeriesFrom] at h
        exact h
      exact List.length_eq_zero.mp hlen
    · intro _
      rfl
  · constructor
    · intro hc
      simp at hc
    · intro he
      subst he
      exact absurd rfl h

/-- Claim C6: with `0 < p_daily * p_wet < 1`, the model return period is the
reciprocal of the annual probability, the annual probability recomputed as
the reciprocal of the model return period is the original one, and the
annual probability is positive (so no division by zero occurs). -/
theorem annualization_round_trip (p_daily p_wet : ℚ)
    (h1 : 0 < p_daily * p_wet) (h2 : p_daily * p_wet < 1) :
    return_period_model p_daily p_wet = 1 / p_annual_model p_daily p_wet ∧
    1 / return_period_model p_daily p_wet = p_annual_model p_daily p_wet ∧
    0 < p_annual_model p_daily p_wet := by
  refine ⟨rfl, ?_, ?_⟩
  · rw [return_period_model, one_div_one_div]
  · rw [p_annual_model]
    have hpow : (1 - p_daily * p_wet) ^ 365 < 1 :=
      pow_lt_one₀ (by linarith) (by linarith) (by norm_num)
    exact sub_pos.mpr hpow

/-- Witness for `annualization_round_trip` at
`p_daily = 1/2`, `p_wet = 1/2`. -/
theorem annualization_round_trip_witness :
    (0 : ℚ) < 1 / 2 * (1 / 2) ∧
    1 / return_period_model (1 / 2) (1 / 2) = p_annual_model (1 / 2) (1 / 2) :=
  ⟨by norm_num,
    (annualization_round_trip (1 / 2) (1 / 2) (by norm_num) (by norm_num)).2.1⟩

/-- Claim C9: the concrete scenario `amounts = [0, 5, 0, 20, 10]` with
threshold 0 gives `N = 5`, `N_wet = 3`, wet subset `[5, 20, 10]`, sorted
descending `[20, 10, 5]`, ranks `[1, 2, 3]`, return periods `[4, 2, 4/3]`,
probabilities `[1/4, 1/2, 3/4]` and `p_wet = 3/5`. -/
theorem concrete_scenario :
    n_days (mkSeries [0, 5, 0, 20, 10]) = 5 ∧
    n_wet_days (mkSeries [0, 5, 0, 20, 10]) = 3 ∧
    (dfwet (mkSeries [0, 5, 0, 20, 10])).map (fun o => o.precipitation)
      = [5, 20, 10] ∧
    (df_sorted (mkSeries [0, 5, 0, 20, 10])).map (fun o => o.precipitation)
      = [20, 10, 5] ∧
    (ranked (mkSeries [0, 5, 0, 20, 10])).map (fun r => r.rank) = [1, 2, 3] ∧
    (ranked (mkSeries [0, 5, 0, 20, 10])).map (fun r => r.return_period)
      = [4, 2, 4 / 3] ∧
    (ranked (mkSeries [0, 5, 0, 20, 10])).map (fun r => r.probability)
      = [1 / 4, 1 / 2, 3 / 4] ∧
    p_wetdays (mkSeries [0, 5, 0, 20, 10]) = 3 / 5 := by
  have e : ranked (mkSeries [0, 5, 0, 20, 10])
      = [⟨4, 20, 1, (((3 : ℕ) : ℚ) + 1) / ((1 : ℕ) : ℚ),
           1 / ((((3 : ℕ) : ℚ) + 1) / ((1 : ℕ) : ℚ))⟩,
         ⟨5, 10, 2, (((3 : ℕ) : ℚ) + 1) / ((2 : ℕ) : ℚ),
           1 / ((((3 : ℕ) : ℚ) + 1) / ((2 : ℕ) : ℚ))⟩,
         ⟨2, 5, 3, (((3 : ℕ) : ℚ) + 1) / ((3 : ℕ) : ℚ),
           1 / ((((3 : ℕ) : ℚ) + 1) / ((3 : ℕ) : ℚ))⟩] := rfl
  refine ⟨by decide, by decide, by decide, by decide, by decide, ?_, ?_, ?_⟩
  · rw [e]
    norm_num
  · rw [e]
    norm_num
  · rw [p_wetdays,
      show n_wet_days (mkSeries [0, 5, 0, 20, 10]) = 3 from by decide,
      show n_days (mkSeries [0, 5, 0, 20, 10]) = 5 from by decide]
    norm_num

/-- Claim C10: in exact arithmetic each per-event probability lies in
`(0, N_wet/(N_wet+1)]`, each annualized probability lies strictly between 0
and 1, each return period is at least `(N_wet+1)/N_wet`, and the extreme
bounds themselves are strictly inside `(0, 1)` resp. above 1: the estimator
never assigns probability exactly 1 or return period exactly 1. -/
theorem empirical_bounds (amounts : List ℚ)
    (hN : 1 ≤ n_days (mkSeries amounts))
    (hw : 1 ≤ n_wet_days (mkSeries amounts)) :
    (∀ r ∈ ranked (mkSeries amounts),
      0 < r.probability ∧
      r.probability ≤ (n_wet_days (mkSeries amounts) : ℚ)
        / ((n_wet_days (mkSeries amounts) : ℚ) + 1) ∧
      ((n_wet_days (mkSeries amounts) : ℚ) + 1)
        / (n_wet_days (mkSeries amounts) : ℚ) ≤ r.return_period) ∧
    (∀ q ∈ probability_annual_exceedance (mkSeries amounts),
      0 < q ∧ q < 1) ∧
    (n_wet_days (mkSeries amounts) : ℚ)
      / ((n_wet_days (mkSeries amounts) : ℚ) + 1) < 1 ∧
    1 < ((n_wet_days (mkSeries amounts) : ℚ) + 1)
      / (n_wet_days (mkSeries amounts) : ℚ) := by
  have hn1 : (1 : ℚ) ≤ (n_wet_days (mkSeries amounts) : ℚ) := by
    exact_mod_cast hw
  have hn0 : (0 : ℚ) < (n_wet_days (mkSeries amounts) : ℚ) := by linarith
  have main : ∀ r ∈ ranked (mkSeries amounts),
      0 < r.probability ∧
      r.probability ≤ (n_wet_days (mkSeries amounts) : ℚ)
        / ((n_wet_days (mkSeries amounts) : ℚ) + 1) ∧
      ((n_wet_days (mkSeries amounts) : ℚ) + 1)
        / (n_wet_days (mkSeries amounts) : ℚ) ≤ r.return_period := by
    intro r hr
    obtain ⟨h1, h2, h3, _⟩ := mem_ranked hr
    have hp := prob_eq_rank_div hr
    have hr1 : (1 : ℚ) ≤ (r.rank : ℚ) := by exact_mod_cast h1
    have hr2 : (r.rank : ℚ) ≤ (n_wet_days (mkSeries amounts) : ℚ) := by
      exact_mod_cast h2
    refine ⟨?_, ?_, ?_⟩
    · rw [hp]
      exact div_pos (by linarith) (by linarith)
    · rw [hp]
      gcongr
    · rw [h3]
      exact div_le_div_of_nonneg_left (by linarith) (by linarith) hr2
  refine ⟨main, ?_, ?_, ?_⟩
  · intro q hq
    rw [probability_annual_exceedance] at hq
    obtain ⟨r, hr, rfl⟩ := List.mem_map.mp hq
    obtain ⟨hp0, hple, _⟩ := main r hr
    have hNq : (1 : ℚ) ≤ (n_days (mkSeries amounts) : ℚ) := by exact_mod_cast hN
    have hw0 : 0 < p_wetdays (mkSeries amounts) :=
      div_pos hn0 (by linarith)
    have hw1 : p_wetdays (mkSeries amounts) ≤ 1 := by
      rw [p_wetdays, div_le_one (by linarith)]
      exact_mod_cast List.length_filter_le _ _
    have hfrac : (n_wet_days (mkSeries amounts) : ℚ)
        / ((n_wet_days (mkSeries amounts) : ℚ) + 1) < 1 := by
      rw [div_lt_one (by linarith)]
      linarith
    have hplt1 : r.probability < 1 := lt_of_le_of_lt hple hfrac
    have hx0 : 0 < r.probability * p_wetdays (mkSeries amounts) :=
      mul_pos hp0 hw0
    have hx1 : r.probability * p_wetdays (mkSeries amounts) < 1 :=
      lt_of_le_of_lt (mul_le_of_le_one_right hp0.le hw1) hplt1
    constructor
    · have hpow : (1 - r.probability * p_wetdays (mkSeries amounts)) ^ 365 < 1 :=
        pow_lt_one₀ (by linarith) (by linarith) (by norm_num)
      exact sub_pos.mpr hpow
    · have hpow :
          0 < (1 - r.probability * p_wetdays (mkSeries amounts)) ^ 365 :=
        pow_pos (by linarith) _
      exact sub_lt_self 1 hpow
  · rw [div_lt_one (by linarith)]
    linarith
  · rw [one_lt_div hn0]
    linarith

/-- Witness for `empirical_bounds` at the concrete series
`[0, 5, 0, 20, 10]`. -/
theorem empirical_bounds_witness :
    1 ≤ n_days (mkSeries [0, 5, 0, 20, 10]) ∧
    ∀ q ∈ probability_annual_exceedance (mkSeries [0, 5, 0, 20, 10]),
      0 < q ∧ q < 1 :=
  ⟨by decide,
    (empirical_bounds [0, 5, 0, 20, 10] (by decide) (by decide)).2.1⟩

end EarthObs
